import Mathlib

/-!
Verification of the Eses Image Offset node (`image_offset.py`).

The single operation `apply_image_transformations` is shallowly embedded
here.  Modelling conventions:

* Float tensors (torch / numpy float32) are modelled over `ℚ`; all the
  arithmetic the code performs on them (multiply by 255, divide by 255,
  `1.0 - v`, clipping) is exact over the rationals for the values of
  interest.
* 8-bit pixel data (the internal PIL representation) is modelled as `ℕ`
  with explicit clipping/truncation where the code converts.
* The batch dimension (always 1 in the code: tensors are
  `1×H×W×C` / `1×H×W` and are `squeeze`d away) is dropped; an image is a
  height/width/channel-indexed grid.
* Python strings are modelled as `List Char` via `String.data`; `str.strip`
  is modelled for ASCII whitespace.
-/

/-- A torch image tensor `1×H×W×C` (batch dimension dropped), float values,
indexed as `pix y x c`. -/
structure ImageT where
  height : Nat
  width : Nat
  channels : Nat
  pix : Nat → Nat → Nat → ℚ

/-- A torch mask tensor `1×H×W` (batch dimension dropped), float values,
indexed as `pix y x`. -/
structure MaskT where
  height : Nat
  width : Nat
  pix : Nat → Nat → ℚ

/-- One 8-bit RGBA pixel of a PIL image. -/
structure RGBA where
  r : Nat
  g : Nat
  b : Nat
  a : Nat
deriving DecidableEq

/-- A PIL `RGBA` image; `pix x y` follows PIL's `(x, y)` coordinate order. -/
structure PilRGBA where
  width : Nat
  height : Nat
  pix : Nat → Nat → RGBA

/-- A PIL mode-`L` (8-bit single channel) image; `pix x y` as in PIL. -/
structure PilL where
  width : Nat
  height : Nat
  pix : Nat → Nat → Nat

/-- Models `np.clip(q, 0, 255).astype(np.uint8)`: clip to `[0,255]`, then
truncate to an integer (truncation toward zero equals `floor` on the
clipped, nonnegative value). -/
def clipToU8 (q : ℚ) : Nat := (⌊max 0 (min 255 q)⌋).toNat

/-- Models lines 91-99: `Image.fromarray(np.clip(255.*image, 0, 255)
.astype(np.uint8))` followed by an unconditional conversion to `RGBA`
(a 3-channel image gets an all-255 alpha channel). -/
def toPilImage (img : ImageT) : PilRGBA :=
  { width := img.width
    height := img.height
    pix := fun x y =>
      { r := clipToU8 (255 * img.pix y x 0)
        g := clipToU8 (255 * img.pix y x 1)
        b := clipToU8 (255 * img.pix y x 2)
        a := if img.channels = 4 then clipToU8 (255 * img.pix y x 3) else 255 } }

/-- Models lines 101-103: `np.clip(mask * 255., 0, 255).astype(np.uint8)`
made into a mode-`L` PIL image. -/
def toPilMask (m : MaskT) : PilL :=
  { width := m.width
    height := m.height
    pix := fun x y => clipToU8 (m.pix y x * 255) }

/-- Models `mask_pil.resize((w, h), Image.NEAREST)` (line 115): each output
pixel takes the source pixel at index `floor((i + 0.5) * src / dst)`. -/
def resizeNearest (m : PilL) (w h : Nat) : PilL :=
  { width := w
    height := h
    pix := fun x y => m.pix ((2 * x + 1) * m.width / (2 * w)) ((2 * y + 1) * m.height / (2 * h)) }

/-- Models `ImageChops.offset(img, ox, oy)` on an RGBA image: a cyclic
shift, `out(x,y) = in((x-ox) mod W, (y-oy) mod H)`. -/
def chopsOffset (img : PilRGBA) (ox oy : Int) : PilRGBA :=
  { img with pix := fun x y =>
      img.pix ((((x : Int) - ox) % (img.width : Int)).toNat) ((((y : Int) - oy) % (img.height : Int)).toNat) }

/-- Models `ImageChops.offset(mask, ox, oy)` on a mode-`L` image. -/
def chopsOffsetL (m : PilL) (ox oy : Int) : PilL :=
  { m with pix := fun x y =>
      m.pix ((((x : Int) - ox) % (m.width : Int)).toNat) ((((y : Int) - oy) % (m.height : Int)).toNat) }

/-- Pillow's `MULDIV255` macro: exact rounding division of `a*b` by 255,
computed as `tmp = a*b + 128; ((tmp >> 8) + tmp) >> 8`. -/
def muldiv255 (a b : Nat) : Nat :=
  ((a * b + 128) / 256 + (a * b + 128)) / 256

/-- Pillow's `BLEND` macro used by `Image.paste` with a mask `m`:
`MULDIV255(dst, 255-m) + MULDIV255(src, m)`. -/
def blendU8 (m d s : Nat) : Nat := muldiv255 d (255 - m) + muldiv255 s m

/-- Models the C cast `(UINT8)` Pillow applies to the components of the
fill color handed to `Image.new`. -/
def toU8Cast (z : Int) : Nat := (z % 256).toNat

/-- Pack a parsed color tuple into an 8-bit RGBA pixel for `Image.new`. -/
def fillToRGBA (c : Int × Int × Int × Int) : RGBA :=
  ⟨toU8Cast c.1, toU8Cast c.2.1, toU8Cast c.2.2.1, toU8Cast c.2.2.2⟩

/-- Models lines 124-128: a fresh `w×h` RGBA canvas filled with the fill
color, onto which the source image is pasted at `(ox, oy)` using the
source's own alpha band as the paste mask (the image is always `RGBA` at
this point, so the mask argument is always the alpha band).  Pixels outside
the pasted region keep the fill color; inside it every band is blended by
Pillow's `BLEND`. -/
def pasteImageClip (fill : RGBA) (w h : Nat) (src : PilRGBA) (ox oy : Int) : PilRGBA :=
  { width := w
    height := h
    pix := fun x y =>
      if ox ≤ (x : Int) ∧ (x : Int) < ox + src.width ∧ oy ≤ (y : Int) ∧ (y : Int) < oy + src.height then
        let s := src.pix ((x : Int) - ox).toNat ((y : Int) - oy).toNat
        ⟨blendU8 s.a fill.r s.r, blendU8 s.a fill.g s.g, blendU8 s.a fill.b s.b,
         blendU8 s.a fill.a s.a⟩
      else fill }

/-- Models lines 136-137: a fresh `w×h` mode-`L` canvas filled with
`fillv`, onto which the mask is pasted (no paste mask, so a plain
overwrite) at `(ox, oy)`. -/
def pasteMaskClip (fillv : Nat) (w h : Nat) (src : PilL) (ox oy : Int) : PilL :=
  { width := w
    height := h
    pix := fun x y =>
      if ox ≤ (x : Int) ∧ (x : Int) < ox + src.width ∧ oy ≤ (y : Int) ∧ (y : Int) < oy + src.height then
        src.pix ((x : Int) - ox).toNat ((y : Int) - oy).toNat
      else fillv }

/-- Models `ImageOps.invert` on a mode-`L` image: `v ↦ 255 - v`. -/
def invertL (m : PilL) : PilL := { m with pix := fun x y => 255 - m.pix x y }

/-- Models `img.putalpha(m)`: replace the alpha band by `m`. -/
def putalpha (img : PilRGBA) (m : PilL) : PilRGBA :=
  { img with pix := fun x y => { img.pix x y with a := m.pix x y } }

/-- Pillow's `SHIFTFORDIV255` macro: `((a >> 8) + a) >> 8`. -/
def shiftForDiv255 (x : Nat) : Nat := (x / 256 + x) / 256

/-- Models one pixel of `Image.alpha_composite(dst, src)` (Pillow's
`AlphaComposite.c`, `PRECISION_BITS = 7`): a fully transparent source
copies the destination; otherwise the integer over-operator with 7 extra
precision bits is applied. -/
def alphaCompositePix (d s : RGBA) : RGBA :=
  if s.a = 0 then d
  else
    let blend := d.a * (255 - s.a)
    let outa255 := s.a * 255 + blend
    let coef1 := s.a * 255 * 255 * 128 / outa255
    let coef2 := 255 * 128 - coef1
    ⟨shiftForDiv255 (s.r * coef1 + d.r * coef2 + 128 * 128) / 128,
     shiftForDiv255 (s.g * coef1 + d.g * coef2 + 128 * 128) / 128,
     shiftForDiv255 (s.b * coef1 + d.b * coef2 + 128 * 128) / 128,
     shiftForDiv255 (outa255 + 128)⟩

/-- Models lines 179-185: composite the image over a solid canvas filled
with the fill color, then flatten to RGB (the alpha band is simply no
longer read afterwards).  The source's `len == 3` branch is unreachable
because `_parse_color_string` always returns a 4-tuple. -/
def compositePhase (fill : RGBA) (img : PilRGBA) : PilRGBA :=
  { img with pix := fun x y => alphaCompositePix fill (img.pix x y) }

/-- ASCII whitespace as recognized by Python's `str.strip` / `int` (the
unicode cases are irrelevant to this program's inputs). -/
def pyIsSpace (c : Char) : Bool :=
  c == ' ' || c == '\t' || c == '\n' || c == '\r' || c == '\x0b' || c == '\x0c'

/-- Models Python `str.strip()` on a character list. -/
def pyStrip (l : List Char) : List Char :=
  ((l.dropWhile pyIsSpace).reverse.dropWhile pyIsSpace).reverse

/-- Decimal value of a digit character. -/
def digitVal (c : Char) : Nat := c.toNat - 48

/-- Hexadecimal digit recognizer, as accepted by Python's `int(s, 16)`. -/
def isHexDigitCh (c : Char) : Bool :=
  c.isDigit || ('a' ≤ c && c ≤ 'f') || ('A' ≤ c && c ≤ 'F')

/-- Value of a hexadecimal digit character. -/
def hexDigitVal (c : Char) : Nat :=
  if c.isDigit then c.toNat - 48
  else if 'a' ≤ c && c ≤ 'f' then c.toNat - 87
  else if 'A' ≤ c && c ≤ 'F' then c.toNat - 55
  else 0

/-- Digit-run parser for Python `int`: after the first digit, single
underscores are allowed between digits (PEP 515); a trailing or doubled
underscore is a parse failure. -/
def pyDigitsAux (b : Nat) (chk : Char → Bool) (v : Char → Nat) : Nat → List Char → Option Nat
  | acc, [] => some acc
  | acc, [c] => if chk c then some (b * acc + v c) else none
  | acc, c :: c2 :: rest =>
    if c = '_' then
      if chk c2 then pyDigitsAux b chk v (b * acc + v c2) rest else none
    else if chk c then pyDigitsAux b chk v (b * acc + v c) (c2 :: rest) else none

/-- A nonempty digit run starting with a digit. -/
def pyIntDigits (b : Nat) (chk : Char → Bool) (v : Char → Nat) : List Char → Option Nat
  | [] => none
  | c :: rest => if chk c then pyDigitsAux b chk v (v c) rest else none

/-- Sign handling of Python `int`: an optional leading sign, then a digit
run. -/
def pyIntCore (b : Nat) (chk : Char → Bool) (v : Char → Nat) : List Char → Option Int
  | [] => none
  | c :: rest =>
    if c = '+' then (pyIntDigits b chk v rest).map Int.ofNat
    else if c = '-' then (pyIntDigits b chk v rest).map (fun n => -Int.ofNat n)
    else (pyIntDigits b chk v (c :: rest)).map Int.ofNat

/-- Models Python `int(s, b)` for this program's purposes: strip ASCII
whitespace, an optional sign, then a digit run (with PEP 515 underscores).
The `0x`/`0b` prefix forms cannot arise here (hex substrings have length
2) and are not modelled. -/
def pyInt (b : Nat) (chk : Char → Bool) (v : Char → Nat) (l : List Char) : Option Int :=
  pyIntCore b chk v (pyStrip l)

/-- Python `int(s)` (base 10). -/
def pyInt10 (l : List Char) : Option Int := pyInt 10 Char.isDigit digitVal l

/-- Python `int(s, 16)`. -/
def pyInt16 (l : List Char) : Option Int := pyInt 16 isHexDigitCh hexDigitVal l

/-- Models Python `s.split(',')`: always nonempty, keeps empty pieces. -/
def splitOnComma : List Char → List (List Char)
  | [] => [[]]
  | c :: rest =>
    if c = ',' then [] :: splitOnComma rest
    else
      match splitOnComma rest with
      | h :: t => (c :: h) :: t
      | [] => [[c]]

/-- Line 67: three 2-character slices parsed as hex, alpha defaulting to
255; any slice failing to parse fails the whole attempt (the `ValueError`
is caught and the decimal attempt runs instead). -/
def parseHex6 (l : List Char) : Option (Int × Int × Int × Int) :=
  match pyInt16 (l.take 2), pyInt16 ((l.drop 2).take 2), pyInt16 ((l.drop 4).take 2) with
  | some r, some g, some b => some (r, g, b, 255)
  | _, _, _ => none

/-- Line 68: four 2-character slices parsed as hex. -/
def parseHex8 (l : List Char) : Option (Int × Int × Int × Int) :=
  match pyInt16 (l.take 2), pyInt16 ((l.drop 2).take 2), pyInt16 ((l.drop 4).take 2),
        pyInt16 ((l.drop 6).take 2) with
  | some r, some g, some b, some a => some (r, g, b, a)
  | _, _, _, _ => none

/-- Line 71: `[int(p.strip()) for p in color_string.split(',')]`; the
extra `p.strip()` is subsumed by the strip inside `pyInt`. -/
def parseDecimalParts (l : List Char) : Option (List Int) :=
  (splitOnComma l).mapM pyInt10

/-- Models `_parse_color_string` (lines 63-76) on a character list. -/
def parseColorChars (l : List Char) : Int × Int × Int × Int :=
  let t := pyStrip l
  if t = [] then (0, 0, 0, 0)
  else
    match (if t.length = 6 then parseHex6 t else if t.length = 8 then parseHex8 t else none) with
    | some c => c
    | none =>
      match parseDecimalParts t with
      | some [r, g, b] => (r, g, b, 255)
      | some [r, g, b, a] => (r, g, b, a)
      | _ => (0, 0, 0, 0)

/-- Models `_parse_color_string` on a Lean string. -/
def parseColorString (s : String) : Int × Int × Int × Int := parseColorChars s.data

/-- The call contract of `apply_image_transformations`: `wrap_around` and
`invert_mask_output` arrive as strings (compared against `"On"` / `"Yes"`
in the code), image and mask are optional. -/
structure Inputs where
  offset_x : Int
  offset_y : Int
  wrap_around : String
  fill_color : String
  invert_mask_output : String
  image : Option ImageT
  mask : Option MaskT

/-- The returned 5-tuple `(IMAGE, MASK, offset_x, offset_y, info)`. -/
structure Outputs where
  image : ImageT
  mask : MaskT
  offset_x : Int
  offset_y : Int
  info : String

/-- `is_mask_connected` (line 86). -/
def isMaskConnected (i : Inputs) : Bool := i.mask.isSome

/-- `(current_width, current_height)`: from the image when present, else
from the mask (lines 99, 107). -/
def dimsOf (i : Inputs) : Nat × Nat :=
  match i.image, i.mask with
  | some img, _ => (img.width, img.height)
  | none, some m => (m.width, m.height)
  | none, none => (0, 0)

/-- `img_pil` after the normalization to RGBA (lines 91-99). -/
def normImageOf (i : Inputs) : Option PilRGBA := i.image.map toPilImage

/-- `mask_pil` before the resize: the converted input mask when connected,
else a full-white synthesized mask at canonical dimensions (lines
101-112). -/
def preMaskOf (i : Inputs) : Option PilL :=
  match i.mask with
  | some m => some (toPilMask m)
  | none =>
    match i.image with
    | some _ => some ⟨(dimsOf i).1, (dimsOf i).2, fun _ _ => 255⟩
    | none => none

/-- `mask_pil` after the nearest-neighbor resize to the image's size when
both exist and the sizes differ (lines 114-115). -/
def normMaskOf (i : Inputs) : Option PilL :=
  match normImageOf i, preMaskOf i with
  | some ip, some mp =>
    if mp.width = ip.width ∧ mp.height = ip.height then some mp
    else some (resizeNearest mp ip.width ip.height)
  | _, mp => mp

/-- `unified_fill_color_tuple` (line 119). -/
def fillOf (i : Inputs) : Int × Int × Int × Int := parseColorString i.fill_color

/-- The offset phase for the image (lines 121-128): cyclic shift when
`wrap_around == "On"`, else paste onto a fill-colored canvas. -/
def offsetImagePhase (wrap : String) (fill : RGBA) (w h : Nat) (ox oy : Int)
    (ip : PilRGBA) : PilRGBA :=
  if wrap = "On" then chopsOffset ip ox oy else pasteImageClip fill w h ip ox oy

/-- The offset phase for the mask (lines 130-137): cyclic shift when
`wrap_around == "On"`, else paste onto a canvas filled with
`mask_fill_value` (255 when a mask is connected, 0 for the dummy). -/
def offsetMaskPhase (wrap : String) (fillv : Nat) (w h : Nat) (ox oy : Int)
    (mp : PilL) : PilL :=
  if wrap = "On" then chopsOffsetL mp ox oy else pasteMaskClip fillv w h mp ox oy

/-- `img_pil` after the offset phase. -/
def offsetImageOf (i : Inputs) : Option PilRGBA :=
  (normImageOf i).map
    (offsetImagePhase i.wrap_around (fillToRGBA (fillOf i)) (dimsOf i).1 (dimsOf i).2
      i.offset_x i.offset_y)

/-- `mask_pil` after the offset phase. -/
def offsetMaskOf (i : Inputs) : Option PilL :=
  (normMaskOf i).map
    (offsetMaskPhase i.wrap_around (if isMaskConnected i then 255 else 0) (dimsOf i).1
      (dimsOf i).2 i.offset_x i.offset_y)

/-- `img_pil` after the alpha-from-mask phase (lines 146-156): when a mask
is connected, the inverted offset mask becomes the image's alpha band. -/
def imageAfterAlphaOf (i : Inputs) : Option PilRGBA :=
  match offsetImageOf i, offsetMaskOf i, isMaskConnected i with
  | some ip, some mp, true => some (putalpha ip (invertL mp))
  | ip, _, _ => ip

/-- `img_pil` after compositing over the fill color (lines 164-185). -/
def compositedImageOf (i : Inputs) : Option PilRGBA :=
  (imageAfterAlphaOf i).map (compositePhase (fillToRGBA (fillOf i)))

/-- `mask_pil` after the output-inversion toggle (lines 190-191). -/
def finalMaskOf (i : Inputs) : Option PilL :=
  if i.invert_mask_output = "Yes" then (offsetMaskOf i).map invertL else offsetMaskOf i

/-- Channel selection when reading the RGB PIL image back into a tensor. -/
def rgbChannel (p : RGBA) (c : Nat) : Nat :=
  if c = 0 then p.r else if c = 1 then p.g else if c = 2 then p.b else 0

/-- `output_image` (lines 198-202): the composited image divided by 255,
or an all-zero `1×H×W×3` tensor when there is no image. -/
def outImageOf (i : Inputs) : ImageT :=
  match compositedImageOf i with
  | some ip => ⟨(dimsOf i).2, (dimsOf i).1, 3, fun y x c => (rgbChannel (ip.pix x y) c : ℚ) / 255⟩
  | none => ⟨(dimsOf i).2, (dimsOf i).1, 3, fun _ _ _ => 0⟩

/-- `output_mask` (lines 204-218): `1 - v/255` when a mask was connected,
else `v/255`, where `v` is the final PIL mask value. -/
def outMaskOf (i : Inputs) : MaskT :=
  match finalMaskOf i with
  | some mp =>
    ⟨(dimsOf i).2, (dimsOf i).1, fun y x =>
      if isMaskConnected i then 1 - (mp.pix x y : ℚ) / 255 else (mp.pix x y : ℚ) / 255⟩
  | none => ⟨(dimsOf i).2, (dimsOf i).1, fun _ _ => 0⟩

/-- `output_info` (line 220). -/
def infoStringOf (i : Inputs) : String :=
  "Offset: (" ++ toString i.offset_x ++ ", " ++ toString i.offset_y ++ "), Size: " ++
    toString (dimsOf i).1 ++ "x" ++ toString (dimsOf i).2 ++ ", Wrapped: " ++ i.wrap_around ++
    ", Mask Output Inverted: " ++ i.invert_mask_output

/-- Models `apply_image_transformations` (lines 78-222). -/
def applyImageTransformations (i : Inputs) : Outputs :=
  if i.image.isNone && i.mask.isNone then
    { image := ⟨64, 64, 3, fun _ _ _ => 0⟩
      mask := ⟨64, 64, fun _ _ => 0⟩
      offset_x := i.offset_x
      offset_y := i.offset_y
      info := "No Image or Mask Input" }
  else
    { image := outImageOf i
      mask := outMaskOf i
      offset_x := i.offset_x
      offset_y := i.offset_y
      info := infoStringOf i }

lemma clipToU8_le (q : ℚ) : clipToU8 q ≤ 255 := by
  have h1 : max 0 (min 255 q) ≤ (255 : ℚ) := max_le (by norm_num) (min_le_left _ _)
  have h2 : ⌊max 0 (min 255 q)⌋ ≤ (255 : ℤ) := by
    have := Int.floor_le_floor h1
    simpa using this
  calc clipToU8 q = (⌊max 0 (min 255 q)⌋).toNat := rfl
    _ ≤ (255 : ℤ).toNat := Int.toNat_le_toNat h2
    _ = 255 := rfl

lemma clipToU8_quant (k : Nat) (h : k ≤ 255) : clipToU8 (255 * ((k : ℚ) / 255)) = k := by
  have h1 : (255 : ℚ) * ((k : ℚ) / 255) = (k : ℚ) := by field_simp
  rw [clipToU8, h1]
  have hk : ((k : ℚ)) ≤ 255 := by exact_mod_cast h
  rw [min_eq_right hk, max_eq_right (by positivity), Int.floor_natCast]
  exact Int.toNat_natCast k

lemma toPilMask_le (m : MaskT) (x y : Nat) : (toPilMask m).pix x y ≤ 255 := clipToU8_le _

lemma preMask_le (i : Inputs) (mp : PilL) (h : preMaskOf i = some mp) (x y : Nat) :
    mp.pix x y ≤ 255 := by
  unfold preMaskOf at h
  rcases hm : i.mask with _ | m <;> rw [hm] at h
  · rcases hi : i.image with _ | img <;> rw [hi] at h
    · exact absurd h (by simp)
    · cases h; exact le_refl 255
  · cases h; exact toPilMask_le m x y

lemma normMask_le (i : Inputs) (mp : PilL) (h : normMaskOf i = some mp) (x y : Nat) :
    mp.pix x y ≤ 255 := by
  unfold normMaskOf at h
  rcases hni : normImageOf i with _ | ip <;> rw [hni] at h
  · exact preMask_le i mp h x y
  · rcases hpm : preMaskOf i with _ | mp0 <;> rw [hpm] at h
    · exact absurd h (by simp)
    · simp only at h
      split at h
      · rw [Option.some_inj] at h
        subst h
        exact preMask_le i _ hpm x y
      · rw [Option.some_inj] at h
        subst h
        exact preMask_le i mp0 hpm _ _

lemma offsetMaskPhase_le (wrap : String) (fillv w h : Nat) (ox oy : Int) (mp : PilL)
    (hf : fillv ≤ 255) (hm : ∀ x y, mp.pix x y ≤ 255) (x y : Nat) :
    (offsetMaskPhase wrap fillv w h ox oy mp).pix x y ≤ 255 := by
  unfold offsetMaskPhase chopsOffsetL pasteMaskClip
  split
  · exact hm _ _
  · dsimp only
    split
    · exact hm _ _
    · exact hf

lemma offsetMask_le (i : Inputs) (mp : PilL) (h : offsetMaskOf i = some mp) (x y : Nat) :
    mp.pix x y ≤ 255 := by
  unfold offsetMaskOf at h
  rcases hnm : normMaskOf i with _ | mp0 <;> rw [hnm] at h
  · exact absurd h (by simp)
  · simp only [Option.map_some'] at h
    cases h
    exact offsetMaskPhase_le _ _ _ _ _ _ _ (by split <;> omega)
      (fun a b => normMask_le i mp0 hnm a b) x y

lemma apply_image_eq (i : Inputs) (h : i.image.isSome ∨ i.mask.isSome) :
    (applyImageTransformations i).image = outImageOf i := by
  unfold applyImageTransformations
  rcases h with h | h <;> rw [Option.isSome_iff_exists] at h <;> obtain ⟨v, hv⟩ := h <;>
    simp [hv]

lemma apply_mask_eq (i : Inputs) (h : i.image.isSome ∨ i.mask.isSome) :
    (applyImageTransformations i).mask = outMaskOf i := by
  unfold applyImageTransformations
  rcases h with h | h <;> rw [Option.isSome_iff_exists] at h <;> obtain ⟨v, hv⟩ := h <;>
    simp [hv]

lemma constRunImage (ox oy : Int) (fc inv : String) (img : ImageT) (m : MaskT) (p : RGBA) (v : Nat)
    (hI : toPilImage img = ⟨img.width, img.height, fun _ _ => p⟩)
    (hM : toPilMask m = ⟨img.width, img.height, fun _ _ => v⟩) :
    (applyImageTransformations ⟨ox, oy, "On", fc, inv, some img, some m⟩).image
      = ⟨img.height, img.width, 3, fun _ _ c =>
          (rgbChannel (alphaCompositePix (fillToRGBA (parseColorString fc))
            ⟨p.r, p.g, p.b, 255 - v⟩) c : ℚ) / 255⟩ := by
  have hp := apply_image_eq ⟨ox, oy, "On", fc, inv, some img, some m⟩ (by simp)
  rw [hp]
  unfold outImageOf compositedImageOf imageAfterAlphaOf offsetImageOf offsetMaskOf
    normImageOf normMaskOf preMaskOf offsetImagePhase offsetMaskPhase dimsOf
    isMaskConnected fillOf
  simp only [Option.map_some', hI, hM, if_true, Option.isSome_some, normImageOf, reduceIte,
    chopsOffset, chopsOffsetL, putalpha, invertL, compositePhase, and_self, eq_self_iff_true]

lemma constRunMask (ox oy : Int) (fc : String) (img : ImageT) (m : MaskT) (p : RGBA) (v : Nat)
    (hI : toPilImage img = ⟨img.width, img.height, fun _ _ => p⟩)
    (hM : toPilMask m = ⟨img.width, img.height, fun _ _ => v⟩) :
    (applyImageTransformations ⟨ox, oy, "On", fc, "No", some img, some m⟩).mask
      = ⟨img.height, img.width, fun _ _ => 1 - (v : ℚ) / 255⟩ := by
  have hp := apply_mask_eq ⟨ox, oy, "On", fc, "No", some img, some m⟩ (by simp)
  rw [hp]
  unfold outMaskOf finalMaskOf offsetMaskOf normMaskOf normImageOf preMaskOf
    offsetMaskPhase dimsOf isMaskConnected
  simp only [Option.map_some', hI, hM, if_true, Option.isSome_some, reduceIte,
    String.reduceEq, chopsOffsetL, and_self, eq_self_iff_true, if_false]

/-- A 2×2 all-white RGB image, concrete counterexample input. -/
def whiteImage2 : ImageT := ⟨2, 2, 3, fun _ _ _ => 1⟩

/-- A 2×2 all-ones mask, concrete counterexample input. -/
def fullMask2 : MaskT := ⟨2, 2, fun _ _ => 1⟩

/-- The all-black / all-zero results of the first counterexample run. -/
def blackImage2 : ImageT := ⟨2, 2, 3, fun _ _ _ => 0⟩

/-- The all-zero mask result of the first counterexample run. -/
def zeroMask2 : MaskT := ⟨2, 2, fun _ _ => 0⟩

lemma toPilImage_white : toPilImage whiteImage2 = ⟨2, 2, fun _ _ => ⟨255, 255, 255, 255⟩⟩ := by
  unfold toPilImage whiteImage2
  congr 1
  funext x y
  norm_num [clipToU8]
  rfl

lemma toPilMask_full : toPilMask fullMask2 = ⟨2, 2, fun _ _ => 255⟩ := by
  unfold toPilMask fullMask2
  congr 1
  funext x y
  norm_num [clipToU8]
  rfl

lemma toPilImage_black : toPilImage blackImage2 = ⟨2, 2, fun _ _ => ⟨0, 0, 0, 255⟩⟩ := by
  unfold toPilImage blackImage2
  congr 1
  funext x y
  norm_num [clipToU8]

lemma toPilMask_zero : toPilMask zeroMask2 = ⟨2, 2, fun _ _ => 0⟩ := by
  unfold toPilMask zeroMask2
  congr 1
  funext x y
  norm_num [clipToU8]

/-- C1 counterexample: with a connected all-ones mask, wrap On and offsets
(0,0), re-running the operation on the result with the negated offsets
does not reproduce the original image: the white input pixel comes back
black, because the alpha-from-mask and composite phases blended the image
into the fill color on the first run. -/
theorem claim_C1_counterexample :
    (applyImageTransformations
        ⟨0, 0, "On", "0,0,0", "No",
          some (applyImageTransformations
              ⟨0, 0, "On", "0,0,0", "No", some whiteImage2, some fullMask2⟩).image,
          some (applyImageTransformations
              ⟨0, 0, "On", "0,0,0", "No", some whiteImage2, some fullMask2⟩).mask⟩).image.pix 0 0 0
      ≠ whiteImage2.pix 0 0 0 := by
  have h1i := constRunImage 0 0 "0,0,0" "No" whiteImage2 fullMask2 ⟨255, 255, 255, 255⟩ 255
    toPilImage_white toPilMask_full
  have h1m := constRunMask 0 0 "0,0,0" whiteImage2 fullMask2 ⟨255, 255, 255, 255⟩ 255
    toPilImage_white toPilMask_full
  rw [h1i, h1m]
  have hacp : alphaCompositePix (fillToRGBA (parseColorString "0,0,0"))
      ⟨(⟨255, 255, 255, 255⟩ : RGBA).r, (⟨255, 255, 255, 255⟩ : RGBA).g,
       (⟨255, 255, 255, 255⟩ : RGBA).b, 255 - 255⟩ = ⟨0, 0, 0, 255⟩ := by decide
  rw [hacp]
  have himg2 : (⟨whiteImage2.height, whiteImage2.width, 3,
      fun _ _ c => ((rgbChannel (⟨0, 0, 0, 255⟩ : RGBA) c : ℚ)) / 255⟩ : ImageT) = blackImage2 := by
    unfold whiteImage2 blackImage2
    congr 1
    funext y x c
    simp [rgbChannel]
  have hmask2 : (⟨whiteImage2.height, whiteImage2.width,
      fun _ _ => 1 - ((255 : Nat) : ℚ) / 255⟩ : MaskT) = zeroMask2 := by
    unfold whiteImage2 zeroMask2
    congr 1
    funext y x
    norm_num
  rw [himg2, hmask2]
  have h2i := constRunImage 0 0 "0,0,0" "No" blackImage2 zeroMask2 ⟨0, 0, 0, 255⟩ 0
    toPilImage_black toPilMask_zero
  rw [h2i]
  have hacp2 : alphaCompositePix (fillToRGBA (parseColorString "0,0,0"))
      ⟨(⟨0, 0, 0, 255⟩ : RGBA).r, (⟨0, 0, 0, 255⟩ : RGBA).g,
       (⟨0, 0, 0, 255⟩ : RGBA).b, 255 - 0⟩ = ⟨0, 0, 0, 255⟩ := by decide
  rw [hacp2]
  norm_num [rgbChannel, whiteImage2, blackImage2]

/-- A 2×2 four-channel image whose alpha channel is 1/2, counterexample
input for C2. -/
def halfAlphaImage2 : ImageT := ⟨2, 2, 4, fun _ _ c => if c = 3 then 1/2 else 1⟩

lemma toPilImage_halfAlpha :
    toPilImage halfAlphaImage2 = ⟨2, 2, fun _ _ => ⟨255, 255, 255, 127⟩⟩ := by
  unfold toPilImage halfAlphaImage2
  congr 1
  funext x y
  norm_num [clipToU8]
  constructor <;> rfl

/-- C2 counterexample: with wrap Off and offset (0,0) the offset phase is
not the identity on a 4-channel image whose alpha is not fully opaque: the
clip-mode paste blends every band with the image's own alpha against the
fill canvas, so the pre-composite image differs from the normalized input
image. -/
theorem claim_C2_counterexample :
    (offsetImagePhase "Off" (fillToRGBA (parseColorString "0,0,0")) 2 2 0 0
        (toPilImage halfAlphaImage2)).pix 0 0
      ≠ (toPilImage halfAlphaImage2).pix 0 0 := by
  rw [toPilImage_halfAlpha]
  decide

lemma muldiv255_zero (d : Nat) : muldiv255 d 0 = 0 := by
  simp [muldiv255]

set_option maxRecDepth 8000 in
lemma muldiv255_255_fin : ∀ s : Fin 256, muldiv255 s.val 255 = s.val := by decide

lemma muldiv255_255 (s : Nat) (h : s ≤ 255) : muldiv255 s 255 = s := by
  have := muldiv255_255_fin ⟨s, by omega⟩
  simpa using this

lemma blendU8_fullAlpha (d s : Nat) (h : s ≤ 255) : blendU8 255 d s = s := by
  unfold blendU8
  rw [Nat.sub_self, muldiv255_zero, muldiv255_255 s h, Nat.zero_add]

lemma sub_zero_emod_toNat (x w : Nat) (hx : x < w) :
    (((x : Int) - 0) % (w : Int)).toNat = x := by
  rw [sub_zero, Int.emod_eq_of_lt (Int.natCast_nonneg x) (by exact_mod_cast hx)]
  exact Int.toNat_natCast x

lemma sub_zero_toNat (x : Nat) : ((x : Int) - 0).toNat = x := by
  rw [sub_zero]
  exact Int.toNat_natCast x

lemma offsetMaskPhase_id (wrap : String) (fillv : Nat) (mp : PilL) (x y : Nat)
    (hx : x < mp.width) (hy : y < mp.height) :
    (offsetMaskPhase wrap fillv mp.width mp.height 0 0 mp).pix x y = mp.pix x y := by
  unfold offsetMaskPhase chopsOffsetL pasteMaskClip
  split
  · dsimp only
    rw [sub_zero_emod_toNat x mp.width hx, sub_zero_emod_toNat y mp.height hy]
  · have hc : (0 : Int) ≤ (x : Int) ∧ (x : Int) < 0 + (mp.width : Int) ∧
        (0 : Int) ≤ (y : Int) ∧ (y : Int) < 0 + (mp.height : Int) := by
      refine ⟨by omega, by omega, by omega, by omega⟩
    simp only
    rw [if_pos hc, sub_zero_toNat x, sub_zero_toNat y]

lemma offsetImagePhase_id (wrap : String) (fill : RGBA) (ip : PilRGBA) (x y : Nat)
    (hx : x < ip.width) (hy : y < ip.height) (ha : (ip.pix x y).a = 255)
    (hr : (ip.pix x y).r ≤ 255) (hg : (ip.pix x y).g ≤ 255) (hb : (ip.pix x y).b ≤ 255) :
    (offsetImagePhase wrap fill ip.width ip.height 0 0 ip).pix x y = ip.pix x y := by
  unfold offsetImagePhase chopsOffset pasteImageClip
  split
  · dsimp only
    rw [sub_zero_emod_toNat x ip.width hx, sub_zero_emod_toNat y ip.height hy]
  · have hc : (0 : Int) ≤ (x : Int) ∧ (x : Int) < 0 + (ip.width : Int) ∧
        (0 : Int) ≤ (y : Int) ∧ (y : Int) < 0 + (ip.height : Int) := by
      refine ⟨by omega, by omega, by omega, by omega⟩
    simp only
    rw [if_pos hc, sub_zero_toNat x, sub_zero_toNat y]
    simp only [ha]
    rw [blendU8_fullAlpha _ _ hr, blendU8_fullAlpha _ _ hg, blendU8_fullAlpha _ _ hb,
      blendU8_fullAlpha _ _ (by norm_num)]
    rw [← ha]

lemma imageOnly_offOrigin_mask (fill : String) (img : ImageT) (x y : Nat)
    (hx : x < img.width) (hy : y < img.height) :
    (applyImageTransformations ⟨0, 0, "Off", fill, "No", some img, none⟩).mask.pix y x = 1 := by
  have hp := apply_mask_eq ⟨0, 0, "Off", fill, "No", some img, none⟩ (by simp)
  rw [hp]
  unfold outMaskOf finalMaskOf offsetMaskOf normMaskOf normImageOf preMaskOf dimsOf
    isMaskConnected
  simp only [Option.map_some', String.reduceEq, reduceIte, Option.isSome_none,
    Option.isSome_some, toPilImage, if_false, and_self, if_true, Bool.false_eq_true]
  have hid := offsetMaskPhase_id "Off" 0 ⟨img.width, img.height, fun _ _ => 255⟩ x y hx hy
  rw [hid]
  norm_num

/-- C2 (amended): with wrap Off and offset (0,0) the offset phase is the
identity on the mask unconditionally, and on the image at every pixel
whose alpha is fully opaque (in particular for 3-channel inputs); and with
an image only, wrap Off and offset (0,0), every output mask pixel is 1.0.
The identity fails for 4-channel images with partial alpha (see the
counterexample), because the clip-mode paste blends with the fill canvas
using the image's own alpha. -/
theorem claim_C2_amended :
    (∀ (wrap : String) (fillv : Nat) (mp : PilL) (x y : Nat),
        x < mp.width → y < mp.height →
        (offsetMaskPhase wrap fillv mp.width mp.height 0 0 mp).pix x y = mp.pix x y) ∧
    (∀ (wrap : String) (fill : RGBA) (ip : PilRGBA) (x y : Nat),
        x < ip.width → y < ip.height → (ip.pix x y).a = 255 →
        (ip.pix x y).r ≤ 255 → (ip.pix x y).g ≤ 255 → (ip.pix x y).b ≤ 255 →
        (offsetImagePhase wrap fill ip.width ip.height 0 0 ip).pix x y = ip.pix x y) ∧
    (∀ (fill : String) (img : ImageT) (x y : Nat),
        x < img.width → y < img.height →
        (applyImageTransformations ⟨0, 0, "Off", fill, "No", some img, none⟩).mask.pix y x = 1) :=
  ⟨offsetMaskPhase_id, offsetImagePhase_id, imageOnly_offOrigin_mask⟩

/-- Witness for the amended C2 at a concrete input: a 2×2 white image with
no mask, wrap Off, offset (0,0), yields output mask value 1 at (0,0). -/
theorem claim_C2_amended_witness :
    (applyImageTransformations ⟨0, 0, "Off", "0,0,0", "No", some whiteImage2, none⟩).mask.pix 0 0
      = 1 :=
  claim_C2_amended.2.2 "0,0,0" whiteImage2 0 0 (by norm_num [whiteImage2]) (by norm_num [whiteImage2])

/-- C7: with neither image nor mask supplied the operation returns the
fixed all-zero 64×64 dummy image and mask, echoes the offsets, and reports
"No Image or Mask Input", whatever the remaining inputs are. -/
theorem claim_C7_no_input (ox oy : Int) (wrap fill inv : String) :
    applyImageTransformations ⟨ox, oy, wrap, fill, inv, none, none⟩ =
      ⟨⟨64, 64, 3, fun _ _ _ => 0⟩, ⟨64, 64, fun _ _ => 0⟩, ox, oy, "No Image or Mask Input"⟩ := rfl

/-- C9: with only a mask supplied the output image is the all-zero
`1×H×W×3` tensor at the mask's dimensions, for every offset, wrap mode,
fill color and invert setting; neither the fill color nor the offsets can
influence it. -/
theorem claim_C9_mask_only_image_zero (ox oy : Int) (wrap fill inv : String) (m : MaskT) :
    (applyImageTransformations ⟨ox, oy, wrap, fill, inv, none, some m⟩).image =
      ⟨m.height, m.width, 3, fun _ _ _ => 0⟩ := rfl

/-- C5 counterexample: `"1_0,2,3"` is none of the four described formats
(its first component is not a plain decimal numeral), yet the parser maps
it to (10,2,3,255) rather than (0,0,0,0), because Python's `int` accepts
PEP 515 underscores between digits. -/
theorem claim_C5_counterexample :
    parseColorString "1_0,2,3" = (10, 2, 3, 255) ∧
      ((10, 2, 3, 255) : Int × Int × Int × Int) ≠ (0, 0, 0, 0) := by decide

/-- C6 counterexample: the comma-decimal path does not clamp, so
`"300,20,30"` parses to a tuple whose first component 300 lies outside
[0,255]. -/
theorem claim_C6_counterexample :
    parseColorString "300,20,30" = (300, 20, 30, 255) ∧ ¬((300 : Int) ≤ 255) := by decide

lemma outMask_pix (i : Inputs) (mp : PilL) (h : offsetMaskOf i = some mp) (x y : Nat) :
    (outMaskOf i).pix y x =
      if i.invert_mask_output = "Yes"
      then (if isMaskConnected i then 1 - (((255 - mp.pix x y : Nat)) : ℚ) / 255
            else (((255 - mp.pix x y : Nat)) : ℚ) / 255)
      else (if isMaskConnected i then 1 - (mp.pix x y : ℚ) / 255 else (mp.pix x y : ℚ) / 255) := by
  unfold outMaskOf finalMaskOf
  by_cases hinv : i.invert_mask_output = "Yes"
  · rw [if_pos hinv, if_pos hinv, h]
    simp [invertL]
  · rw [if_neg hinv, if_neg hinv, h]

lemma normMask_isSome (i : Inputs) (h : i.image.isSome ∨ i.mask.isSome) :
    ∃ mp, normMaskOf i = some mp := by
  unfold normMaskOf normImageOf preMaskOf
  rcases hi : i.image with _ | img <;> rcases hm : i.mask with _ | m
  · rw [hi, hm] at h
    simp at h
  · exact ⟨_, rfl⟩
  · simp only [Option.map_some']
    split
    · exact ⟨_, rfl⟩
    · exact ⟨_, rfl⟩
  · simp only [Option.map_some']
    split
    · exact ⟨_, rfl⟩
    · exact ⟨_, rfl⟩

lemma offsetMask_isSome (i : Inputs) (h : i.image.isSome ∨ i.mask.isSome) :
    ∃ mp, offsetMaskOf i = some mp := by
  obtain ⟨mp0, h0⟩ := normMask_isSome i h
  have he : offsetMaskOf i = some (offsetMaskPhase i.wrap_around
      (if isMaskConnected i then 255 else 0) (dimsOf i).1 (dimsOf i).2
      i.offset_x i.offset_y mp0) := by
    unfold offsetMaskOf
    rw [h0]
    rfl
  exact ⟨_, he⟩

lemma offsetMask_presence (i : Inputs) (mp : PilL) (h : offsetMaskOf i = some mp) :
    i.image.isSome ∨ i.mask.isSome := by
  rcases hi : i.image with _ | img <;> rcases hm : i.mask with _ | m
  · unfold offsetMaskOf normMaskOf normImageOf preMaskOf at h
    rw [hi, hm] at h
    simp at h
  · right
    simp [hm]
  · left
    simp [hi]
  · left
    simp [hi]

lemma inv_complement (v : Nat) (hv : v ≤ 255) :
    1 - (((255 - v : Nat)) : ℚ) / 255 = 1 - (1 - (v : ℚ) / 255) := by
  rw [Nat.cast_sub hv]
  push_cast
  ring

lemma inv_plain (v : Nat) (hv : v ≤ 255) :
    (((255 - v : Nat)) : ℚ) / 255 = 1 - (v : ℚ) / 255 := by
  rw [Nat.cast_sub hv]
  push_cast
  ring

/-- C3: each output mask pixel is `1 - offset_mask/255` when a mask was
connected and `offset_mask/255` when it was synthesized, in both cases
then optionally inverted by the toggle (the code inverts at the 8-bit
level first and complements afterwards; the two orders agree); and the
alpha-from-mask phase consumes the offset mask before the toggle: the
alpha written into the image is `255 - offset_mask`, with the pre-toggle
mask, for either toggle value. -/
theorem claim_C3_mask_derivation (i : Inputs) (mp : PilL) (h : offsetMaskOf i = some mp)
    (x y : Nat) (hx : x < (dimsOf i).1) (hy : y < (dimsOf i).2) :
    (applyImageTransformations i).mask.pix y x =
      (if i.invert_mask_output = "Yes"
        then 1 - (if isMaskConnected i then 1 - (mp.pix x y : ℚ) / 255 else (mp.pix x y : ℚ) / 255)
        else (if isMaskConnected i then 1 - (mp.pix x y : ℚ) / 255 else (mp.pix x y : ℚ) / 255)) ∧
    (∀ ip, imageAfterAlphaOf i = some ip → isMaskConnected i = true →
      (ip.pix x y).a = 255 - mp.pix x y) := by
  constructor
  · rw [apply_mask_eq i (offsetMask_presence i mp h), outMask_pix i mp h x y]
    have hv := offsetMask_le i mp h x y
    by_cases hinv : i.invert_mask_output = "Yes"
    · rw [if_pos hinv, if_pos hinv]
      cases hconn : isMaskConnected i
      · rw [if_neg (by simp [hconn]), if_neg (by simp [hconn])]
        rw [inv_plain _ hv]
      · rw [if_pos (by simp [hconn]), if_pos (by simp [hconn])]
        rw [inv_complement _ hv]
    · rw [if_neg hinv, if_neg hinv]
  · intro ip hip hconn
    unfold imageAfterAlphaOf at hip
    rw [h, hconn] at hip
    rcases hoi : offsetImageOf i with _ | ip0 <;> rw [hoi] at hip
    · exact absurd hip (by simp)
    · rw [Option.some_inj] at hip
      subst hip
      rfl

/-- Witness for C3 at a concrete input: mask-only all-ones mask, wrap On,
offsets (0,0), inverted output; the output mask pixel (0,0) is 1. -/
theorem claim_C3_witness :
    (applyImageTransformations ⟨0, 0, "On", "0,0,0", "Yes", none, some fullMask2⟩).mask.pix 0 0
      = 1 := by
  have h := (claim_C3_mask_derivation ⟨0, 0, "On", "0,0,0", "Yes", none, some fullMask2⟩
      (offsetMaskPhase "On" 255 2 2 0 0 (toPilMask fullMask2)) rfl 0 0 (by decide) (by decide)).1
  rw [h]
  have hval : (offsetMaskPhase "On" 255 2 2 0 0 (toPilMask fullMask2)).pix 0 0 = 255 := by
    rw [toPilMask_full]
    decide
  simp only [isMaskConnected, Option.isSome_some, reduceIte, String.reduceEq, if_true]
  rw [hval]
  norm_num

/-- C4: with everything else fixed, running with invert_mask_output "Yes"
yields, at every pixel, 1 minus the mask of the "No" run, while the image
output and the echoed offsets coincide between the two runs (the info
string, which embeds the toggle, is the only other difference). -/
theorem claim_C4_invert_toggle (ox oy : Int) (wrap fill : String) (io : Option ImageT)
    (mo : Option MaskT) (hpres : io.isSome ∨ mo.isSome) (x y : Nat) :
    (applyImageTransformations ⟨ox, oy, wrap, fill, "Yes", io, mo⟩).mask.pix y x
        = 1 - (applyImageTransformations ⟨ox, oy, wrap, fill, "No", io, mo⟩).mask.pix y x ∧
      (applyImageTransformations ⟨ox, oy, wrap, fill, "Yes", io, mo⟩).image
        = (applyImageTransformations ⟨ox, oy, wrap, fill, "No", io, mo⟩).image ∧
      (applyImageTransformations ⟨ox, oy, wrap, fill, "Yes", io, mo⟩).offset_x = ox ∧
      (applyImageTransformations ⟨ox, oy, wrap, fill, "Yes", io, mo⟩).offset_y = oy := by
  have hpresN : (⟨ox, oy, wrap, fill, "No", io, mo⟩ : Inputs).image.isSome ∨
      (⟨ox, oy, wrap, fill, "No", io, mo⟩ : Inputs).mask.isSome := hpres
  have hpresY : (⟨ox, oy, wrap, fill, "Yes", io, mo⟩ : Inputs).image.isSome ∨
      (⟨ox, oy, wrap, fill, "Yes", io, mo⟩ : Inputs).mask.isSome := hpres
  obtain ⟨mp, hmpN⟩ := offsetMask_isSome ⟨ox, oy, wrap, fill, "No", io, mo⟩ hpresN
  have hmpY : offsetMaskOf ⟨ox, oy, wrap, fill, "Yes", io, mo⟩ = some mp := hmpN
  have hv := offsetMask_le _ mp hmpN x y
  refine ⟨?_, ?_, ?_, ?_⟩
  · rw [apply_mask_eq _ hpresY, apply_mask_eq _ hpresN,
      outMask_pix _ mp hmpY x y, outMask_pix _ mp hmpN x y]
    rw [if_pos (show ("Yes" : String) = "Yes" from rfl),
      if_neg (show ¬(("No" : String) = "Yes") by decide)]
    rcases mo with _ | m
    · rw [if_neg (by simp [isMaskConnected]), if_neg (by simp [isMaskConnected])]
      rw [inv_plain _ hv]
    · rw [if_pos (by simp [isMaskConnected]), if_pos (by simp [isMaskConnected])]
      rw [inv_complement _ hv]
  · rcases io with _ | img
    · rcases mo with _ | m
      · simp at hpres
      · rfl
    · rfl
  · rcases io with _ | img
    · rcases mo with _ | m
      · simp at hpres
      · rfl
    · rfl
  · rcases io with _ | img
    · rcases mo with _ | m
      · simp at hpres
      · rfl
    · rfl

/-- Witness for C4 at a concrete input: 2×2 white image with a full mask,
wrap On, offset (0,0); pixel (0,0) of the inverted-run mask is 1 minus the
uninverted run's, the images coincide, the offsets echo. -/
theorem claim_C4_witness :
    (applyImageTransformations ⟨0, 0, "On", "0,0,0", "Yes", some whiteImage2, some fullMask2⟩).mask.pix 0 0
        = 1 - (applyImageTransformations ⟨0, 0, "On", "0,0,0", "No", some whiteImage2, some fullMask2⟩).mask.pix 0 0 ∧
      (applyImageTransformations ⟨0, 0, "On", "0,0,0", "Yes", some whiteImage2, some fullMask2⟩).image
        = (applyImageTransformations ⟨0, 0, "On", "0,0,0", "No", some whiteImage2, some fullMask2⟩).image ∧
      (applyImageTransformations ⟨0, 0, "On", "0,0,0", "Yes", some whiteImage2, some fullMask2⟩).offset_x = 0 ∧
      (applyImageTransformations ⟨0, 0, "On", "0,0,0", "Yes", some whiteImage2, some fullMask2⟩).offset_y = 0 :=
  claim_C4_invert_toggle 0 0 "On" "0,0,0" (some whiteImage2) (some fullMask2) (by simp) 0 0

/-- C10: whenever at least one of image/mask is supplied, every output
mask value lies in [0, 1], whatever the input mask values were (the
conversion clips to 8 bits and both complement and inversion stay in
range). -/
theorem claim_C10_mask_range (i : Inputs) (h : i.image.isSome ∨ i.mask.isSome) (x y : Nat) :
    0 ≤ (applyImageTransformations i).mask.pix y x ∧
      (applyImageTransformations i).mask.pix y x ≤ 1 := by
  obtain ⟨mp, hmp⟩ := offsetMask_isSome i h
  have hv := offsetMask_le i mp hmp x y
  rw [apply_mask_eq i h, outMask_pix i mp hmp x y]
  have hq1 : 0 ≤ (mp.pix x y : ℚ) / 255 := by positivity
  have hq2 : (mp.pix x y : ℚ) / 255 ≤ 1 := by
    rw [div_le_one (by norm_num)]
    exact_mod_cast hv
  have hq3 : 0 ≤ (((255 - mp.pix x y : Nat)) : ℚ) / 255 := by positivity
  have hq4 : (((255 - mp.pix x y : Nat)) : ℚ) / 255 ≤ 1 := by
    rw [div_le_one (by norm_num)]
    exact_mod_cast Nat.sub_le 255 _
  constructor <;> split <;> split <;> linarith

/-- Witness for C10 at a concrete input: mask-only run with an all-ones
mask; the output pixel (0,0) lies in [0,1]. -/
theorem claim_C10_witness :
    0 ≤ (applyImageTransformations ⟨3, -2, "Off", "0,0,0", "No", none, some fullMask2⟩).mask.pix 0 0 ∧
      (applyImageTransformations ⟨3, -2, "Off", "0,0,0", "No", none, some fullMask2⟩).mask.pix 0 0 ≤ 1 :=
  claim_C10_mask_range ⟨3, -2, "Off", "0,0,0", "No", none, some fullMask2⟩ (by simp) 0 0

/-- C8: in clip mode the canvas the mask is pasted onto is filled with 255
when a caller mask is connected and 0 for a synthesized mask: every pixel
outside the pasted region of the offset mask carries exactly that fill
value. -/
theorem claim_C8_mask_canvas (i : Inputs) (mp0 mp1 : PilL)
    (h0 : normMaskOf i = some mp0) (h1 : offsetMaskOf i = some mp1)
    (hw : i.wrap_around = "Off") (x y : Nat)
    (hout : ¬(i.offset_x ≤ (x : Int) ∧ (x : Int) < i.offset_x + mp0.width ∧
              i.offset_y ≤ (y : Int) ∧ (y : Int) < i.offset_y + mp0.height)) :
    mp1.pix x y = if isMaskConnected i then 255 else 0 := by
  unfold offsetMaskOf at h1
  rw [h0] at h1
  simp only [Option.map_some'] at h1
  rw [Option.some_inj] at h1
  subst h1
  unfold offsetMaskPhase
  rw [hw, if_neg (by decide)]
  unfold pasteMaskClip
  dsimp only
  rw [if_neg hout]

/-- Witness for C8 at a concrete input: mask-only run, offset (10,0), clip
mode; pixel (0,0) is outside the pasted region and carries 255 (connected
mask). -/
theorem claim_C8_witness :
    (offsetMaskPhase "Off" 255 2 2 10 0 (toPilMask fullMask2)).pix 0 0 = 255 := by
  have h := claim_C8_mask_canvas ⟨10, 0, "Off", "0,0,0", "No", none, some fullMask2⟩
      (toPilMask fullMask2) (offsetMaskPhase "Off" 255 2 2 10 0 (toPilMask fullMask2))
      rfl rfl rfl 0 0 (by decide)
  simpa [isMaskConnected] using h

set_option maxRecDepth 8000 in
lemma shiftChan_fin : ∀ n : Fin 256, shiftForDiv255 (n.val * 32640 + 16384) / 128 = n.val := by
  decide

lemma shiftChan (n : Nat) (h : n ≤ 255) : shiftForDiv255 (n * 32640 + 16384) / 128 = n := by
  have := shiftChan_fin ⟨n, by omega⟩
  simpa using this

lemma alphaCompositePix_fullAlpha (d s : RGBA) (ha : s.a = 255) (hr : s.r ≤ 255)
    (hg : s.g ≤ 255) (hb : s.b ≤ 255) : alphaCompositePix d s = s := by
  unfold alphaCompositePix
  rw [ha, if_neg (by norm_num)]
  dsimp only
  norm_num
  rw [shiftChan s.r hr, shiftChan s.g hg, shiftChan s.b hb]
  rw [show shiftForDiv255 (255 * 255 + 128) = 255 by norm_num [shiftForDiv255]]
  rw [← ha]

lemma emod_roundtrip (x : Nat) (o : Int) (w : Nat) (hw : 0 < w) (hx : x < w) :
    ((((((x : Int) + o) % (w : Int)).toNat : Int) - o) % (w : Int)).toNat = x := by
  have hw' : (0 : Int) < (w : Int) := by exact_mod_cast hw
  have h1 : 0 ≤ ((x : Int) + o) % (w : Int) := Int.emod_nonneg _ (by omega)
  rw [Int.toNat_of_nonneg h1]
  have h2 : (((x : Int) + o) % (w : Int) - o) % (w : Int) = ((x : Int) + o - o) % (w : Int) := by
    conv_rhs => rw [Int.sub_emod]
    rw [Int.sub_emod, Int.emod_emod_of_dvd _ dvd_rfl]
  rw [h2]
  simp only [add_sub_cancel_right]
  rw [Int.emod_eq_of_lt (by positivity) (by exact_mod_cast hx)]
  exact Int.toNat_natCast x

lemma imageOnly_on_image (ox oy : Int) (fill inv : String) (img : ImageT)
    (hch : img.channels = 3) :
    (applyImageTransformations ⟨ox, oy, "On", fill, inv, some img, none⟩).image
      = ⟨img.height, img.width, 3, fun y x c =>
          (rgbChannel ((toPilImage img).pix ((((x : Int) - ox) % (img.width : Int)).toNat)
              ((((y : Int) - oy) % (img.height : Int)).toNat)) c : ℚ) / 255⟩ := by
  rw [apply_image_eq _ (by simp)]
  unfold outImageOf compositedImageOf imageAfterAlphaOf offsetImageOf offsetMaskOf
    normImageOf normMaskOf preMaskOf offsetImagePhase offsetMaskPhase dimsOf
    isMaskConnected fillOf
  simp only [Option.map_some', Option.map_none', Option.isSome_none, Option.isSome_some,
    String.reduceEq, reduceIte, if_true, if_false, Bool.false_eq_true, and_self,
    normImageOf, chopsOffset, compositePhase, toPilImage]
  congr 1
  funext y x c
  rw [alphaCompositePix_fullAlpha _ _ (by simp [hch]) (clipToU8_le _) (clipToU8_le _) (clipToU8_le _)]

lemma toPilImage_of_out (ox oy : Int) (fill inv : String) (img : ImageT)
    (hch : img.channels = 3) :
    toPilImage ((applyImageTransformations ⟨ox, oy, "On", fill, inv, some img, none⟩).image)
      = chopsOffset (toPilImage img) ox oy := by
  rw [imageOnly_on_image ox oy fill inv img hch]
  unfold chopsOffset
  dsimp only [toPilImage]
  congr 1
  funext x y
  simp only [rgbChannel, reduceIte, hch, RGBA.mk.injEq]
  refine ⟨?_, ?_, ?_, ?_⟩
  · exact clipToU8_quant _ (clipToU8_le _)
  · exact clipToU8_quant _ (clipToU8_le _)
  · exact clipToU8_quant _ (clipToU8_le _)
  · norm_num

/-- C1 (amended): for a 3-channel image whose pixel values lie on the
1/255 grid and no connected mask, offsetting with wrap On and then
offsetting the resulting image (alone) by the negated offsets with wrap On
reproduces the original image exactly.  As stated the claim fails: with a
connected mask the alpha-from-mask and composite phases blend the image
into the fill color (see the counterexample), and off-grid float values
are quantized to 8 bits on the first pass. -/
theorem claim_C1_amended (ox oy : Int) (fill1 fill2 inv1 inv2 : String) (img : ImageT)
    (hch : img.channels = 3)
    (hq : ∀ y x c, ∃ k : Nat, k ≤ 255 ∧ img.pix y x c = (k : ℚ) / 255)
    (x y c : Nat) (hx : x < img.width) (hy : y < img.height) (hc : c < 3) :
    (applyImageTransformations ⟨-ox, -oy, "On", fill2, inv2,
        some (applyImageTransformations ⟨ox, oy, "On", fill1, inv1, some img, none⟩).image,
        none⟩).image.pix y x c = img.pix y x c := by
  have hch1 : ((applyImageTransformations
      ⟨ox, oy, "On", fill1, inv1, some img, none⟩).image).channels = 3 := by
    rw [imageOnly_on_image ox oy fill1 inv1 img hch]
  have hW : ((applyImageTransformations
      ⟨ox, oy, "On", fill1, inv1, some img, none⟩).image).width = img.width := by
    rw [imageOnly_on_image ox oy fill1 inv1 img hch]
  have hH : ((applyImageTransformations
      ⟨ox, oy, "On", fill1, inv1, some img, none⟩).image).height = img.height := by
    rw [imageOnly_on_image ox oy fill1 inv1 img hch]
  rw [imageOnly_on_image (-ox) (-oy) fill2 inv2 _ hch1]
  dsimp only
  rw [hW, hH, toPilImage_of_out ox oy fill1 inv1 img hch]
  dsimp only [chopsOffset, toPilImage]
  have hX : (((((((x : Int) - -ox) % (img.width : Int)).toNat : Int)) - ox)
      % (img.width : Int)).toNat = x := by
    rw [sub_neg_eq_add]
    exact emod_roundtrip x ox img.width (by omega) hx
  have hY : (((((((y : Int) - -oy) % (img.height : Int)).toNat : Int)) - oy)
      % (img.height : Int)).toNat = y := by
    rw [sub_neg_eq_add]
    exact emod_roundtrip y oy img.height (by omega) hy
  rw [hX, hY]
  interval_cases c
  · obtain ⟨k, hk, hpix⟩ := hq y x 0
    rw [hpix]
    simp only [rgbChannel, reduceIte]
    rw [clipToU8_quant k hk]
  · obtain ⟨k, hk, hpix⟩ := hq y x 1
    rw [hpix]
    simp only [rgbChannel, reduceIte]
    rw [clipToU8_quant k hk]
    norm_num
  · obtain ⟨k, hk, hpix⟩ := hq y x 2
    rw [hpix]
    simp only [rgbChannel, reduceIte]
    rw [clipToU8_quant k hk]
    norm_num

/-- Witness for the amended C1 at a concrete input: a 2×2 white image,
offset (1,0) with wrap On and then (-1,0) with wrap On, reproduces pixel
(0,0,0). -/
theorem claim_C1_amended_witness :
    (applyImageTransformations ⟨-1, -0, "On", "0,0,0", "No",
        some (applyImageTransformations ⟨1, 0, "On", "0,0,0", "No", some whiteImage2, none⟩).image,
        none⟩).image.pix 0 0 0 = 1 := by
  have h := claim_C1_amended 1 0 "0,0,0" "0,0,0" "No" "No" whiteImage2 rfl
    (fun _ _ _ => ⟨255, by norm_num, by norm_num [whiteImage2]⟩) 0 0 0
    (by norm_num [whiteImage2]) (by norm_num [whiteImage2]) (by norm_num)
  rw [h]
  norm_num [whiteImage2]

lemma isDigit_range {c : Char} (h : c.isDigit = true) : 48 ≤ c.toNat ∧ c.toNat ≤ 57 := by
  simp [Char.isDigit] at h
  exact h

lemma isHex_range {c : Char} (h : isHexDigitCh c = true) :
    (48 ≤ c.toNat ∧ c.toNat ≤ 57) ∨ (97 ≤ c.toNat ∧ c.toNat ≤ 102) ∨
      (65 ≤ c.toNat ∧ c.toNat ≤ 70) := by
  simp [isHexDigitCh, Char.isDigit] at h
  rcases h with (h | h) | h
  · exact Or.inl h
  · exact Or.inr (Or.inl ⟨h.1, h.2⟩)
  · exact Or.inr (Or.inr ⟨h.1, h.2⟩)

lemma char_ne_of_toNat {c d : Char} (h : c.toNat ≠ d.toNat) : c ≠ d := fun he => h (by rw [he])

lemma hex_not_space {c : Char} (h : isHexDigitCh c = true) : pyIsSpace c = false := by
  have hr := isHex_range h
  simp only [pyIsSpace, Bool.or_eq_false_iff, beq_eq_false_iff_ne, ne_eq]
  refine ⟨⟨⟨⟨⟨?_, ?_⟩, ?_⟩, ?_⟩, ?_⟩, ?_⟩ <;>
    exact fun he => by rw [he] at hr; exact absurd hr (by decide)

lemma hex_ne_plus {c : Char} (h : isHexDigitCh c = true) : c ≠ '+' := by
  have hr := isHex_range h
  exact char_ne_of_toNat (by rcases hr with ⟨a, b⟩ | ⟨a, b⟩ | ⟨a, b⟩ <;> simp <;> omega)

lemma hex_ne_minus {c : Char} (h : isHexDigitCh c = true) : c ≠ '-' := by
  have hr := isHex_range h
  exact char_ne_of_toNat (by rcases hr with ⟨a, b⟩ | ⟨a, b⟩ | ⟨a, b⟩ <;> simp <;> omega)

lemma hex_ne_underscore {c : Char} (h : isHexDigitCh c = true) : c ≠ '_' := by
  have hr := isHex_range h
  exact char_ne_of_toNat (by rcases hr with ⟨a, b⟩ | ⟨a, b⟩ | ⟨a, b⟩ <;> simp <;> omega)

lemma hex_ne_comma {c : Char} (h : isHexDigitCh c = true) : c ≠ ',' := by
  have hr := isHex_range h
  exact char_ne_of_toNat (by rcases hr with ⟨a, b⟩ | ⟨a, b⟩ | ⟨a, b⟩ <;> simp <;> omega)

lemma digit_isHex {c : Char} (h : c.isDigit = true) : isHexDigitCh c = true := by
  simp [isHexDigitCh, h]

lemma hexDigitVal_le {c : Char} (h : isHexDigitCh c = true) : hexDigitVal c ≤ 15 := by
  have hr := isHex_range h
  unfold hexDigitVal
  split
  · rename_i hd
    have := isDigit_range hd
    omega
  · split
    · rename_i h2
      have h3 : 97 ≤ c.toNat ∧ c.toNat ≤ 102 := by
        rw [Bool.and_eq_true] at h2
        exact ⟨of_decide_eq_true h2.1, of_decide_eq_true h2.2⟩
      omega
    · split
      · rename_i h3
        have h4 : 65 ≤ c.toNat ∧ c.toNat ≤ 70 := by
          rw [Bool.and_eq_true] at h3
          exact ⟨of_decide_eq_true h3.1, of_decide_eq_true h3.2⟩
        omega
      · omega

lemma digit_not_space {c : Char} (h : c.isDigit = true) : pyIsSpace c = false :=
  hex_not_space (digit_isHex h)

lemma digit_ne_comma {c : Char} (h : c.isDigit = true) : c ≠ ',' :=
  hex_ne_comma (digit_isHex h)

lemma digit_ne_underscore {c : Char} (h : c.isDigit = true) : c ≠ '_' :=
  hex_ne_underscore (digit_isHex h)

lemma comma_not_space : pyIsSpace ',' = false := by decide

lemma dropWhile_eq_self_of {p : Char → Bool} {l : List Char}
    (h : ∀ c ∈ l, p c = false) : l.dropWhile p = l := by
  cases l with
  | nil => rfl
  | cons c t => simp [List.dropWhile, h c (by simp)]

lemma pyStrip_id {l : List Char} (h : ∀ c ∈ l, pyIsSpace c = false) : pyStrip l = l := by
  unfold pyStrip
  rw [dropWhile_eq_self_of h, dropWhile_eq_self_of (fun c hc => h c (by simpa using hc)),
    List.reverse_reverse]

lemma splitOnComma_no_comma {l : List Char} (h : ',' ∉ l) : splitOnComma l = [l] := by
  induction l with
  | nil => rfl
  | cons c t ih =>
    rw [splitOnComma, if_neg (by rintro rfl; exact h (by simp)), ih (fun hm => h (by simp [hm]))]

lemma splitOnComma_append (d r : List Char) (h : ',' ∉ d) :
    splitOnComma (d ++ ',' :: r) = d :: splitOnComma r := by
  induction d with
  | nil => simp [splitOnComma]
  | cons c t ih =>
    rw [List.cons_append, splitOnComma, if_neg (by rintro rfl; exact h (by simp)),
      ih (fun hm => h (by simp [hm]))]

lemma pyDigitsAux_all (b : Nat) (chk : Char → Bool) (v : Char → Nat) :
    ∀ (l : List Char) (acc : Nat), (∀ c ∈ l, chk c = true ∧ c ≠ '_') →
      pyDigitsAux b chk v acc l = some (l.foldl (fun a c => b * a + v c) acc)
  | [], acc, _ => rfl
  | [c], acc, h => by
    have hc := h c (by simp)
    simp [pyDigitsAux, hc.1, List.foldl]
  | c :: c2 :: rest, acc, h => by
    have hc := h c (by simp)
    rw [pyDigitsAux, if_neg hc.2, if_pos hc.1,
      pyDigitsAux_all b chk v (c2 :: rest) (b * acc + v c) (fun d hd => h d (by simp [hd]))]
    rfl

lemma pyDigitsAux_comma (b : Nat) (chk : Char → Bool) (v : Char → Nat)
    (hc : chk ',' = false) :
    ∀ (l : List Char) (acc : Nat), ',' ∈ l → pyDigitsAux b chk v acc l = none
  | [c], acc, hm => by
    have : c = ',' := (List.mem_singleton.mp hm).symm
    subst this
    simp [pyDigitsAux, hc]
  | c :: c2 :: rest, acc, hm => by
    rw [pyDigitsAux]
    by_cases h1 : c = '_'
    · rw [if_pos h1]
      by_cases h2 : chk c2 = true
      · rw [if_pos h2]
        have hm2 : ',' ∈ rest := by
          rcases List.mem_cons.mp hm with h3 | h3
          · exact absurd h1 (by rw [← h3]; decide)
          · rcases List.mem_cons.mp h3 with h4 | h4
            · rw [← h4] at h2
              rw [h2] at hc
              exact absurd hc (by simp)
            · exact h4
        exact pyDigitsAux_comma b chk v hc rest (b * acc + v c2) hm2
      · rw [if_neg h2]
    · rw [if_neg h1]
      by_cases h2 : chk c = true
      · rw [if_pos h2]
        have hm2 : ',' ∈ c2 :: rest := by
          rcases List.mem_cons.mp hm with h3 | h3
          · rw [← h3] at h2
            rw [h2] at hc
            exact absurd hc (by simp)
          · exact h3
        exact pyDigitsAux_comma b chk v hc (c2 :: rest) (b * acc + v c) hm2
      · rw [if_neg h2]

lemma pyIntDigits_all (b : Nat) (chk : Char → Bool) (v : Char → Nat) (c : Char) (t : List Char)
    (h : ∀ d ∈ c :: t, chk d = true ∧ d ≠ '_') :
    pyIntDigits b chk v (c :: t) =
      some ((c :: t).foldl (fun a d => b * a + v d) 0) := by
  rw [pyIntDigits, if_pos (h c (by simp)).1,
    pyDigitsAux_all b chk v t (v c) (fun d hd => h d (by simp [hd]))]
  simp

lemma pyIntDigits_comma (b : Nat) (chk : Char → Bool) (v : Char → Nat) (hc : chk ',' = false)
    (l : List Char) (hm : ',' ∈ l) : pyIntDigits b chk v l = none := by
  cases l with
  | nil => simp at hm
  | cons c t =>
    rw [pyIntDigits]
    by_cases h2 : chk c = true
    · rw [if_pos h2]
      have hm2 : ',' ∈ t := by
        rcases List.mem_cons.mp hm with h3 | h3
        · rw [← h3] at h2
          rw [h2] at hc
          exact absurd hc (by simp)
        · exact h3
      exact pyDigitsAux_comma b chk v hc t (v c) hm2
    · rw [if_neg h2]

lemma mem_dropWhile_of_not {p : Char → Bool} {c : Char} (hc : p c = false) :
    ∀ l : List Char, c ∈ l → c ∈ l.dropWhile p
  | d :: t, hm => by
    rw [List.dropWhile]
    by_cases h1 : p d = true
    · rw [h1]
      have hmt : c ∈ t := by
        rcases List.mem_cons.mp hm with h2 | h2
        · rw [h2] at hc
          rw [hc] at h1
          exact absurd h1 (by simp)
        · exact h2
      exact mem_dropWhile_of_not hc t hmt
    · rw [Bool.not_eq_true] at h1
      rw [h1]
      exact hm

lemma mem_pyStrip {c : Char} {l : List Char} (hc : pyIsSpace c = false) (hm : c ∈ l) :
    c ∈ pyStrip l := by
  unfold pyStrip
  rw [List.mem_reverse]
  exact mem_dropWhile_of_not hc _ (by rw [List.mem_reverse]; exact mem_dropWhile_of_not hc _ hm)

lemma pyInt_comma (b : Nat) (chk : Char → Bool) (v : Char → Nat) (hc : chk ',' = false)
    (l : List Char) (hm : ',' ∈ l) : pyInt b chk v l = none := by
  have hms : ',' ∈ pyStrip l := mem_pyStrip comma_not_space hm
  rw [pyInt]
  rcases hs : pyStrip l with _ | ⟨c, rest⟩
  · rfl
  · rw [hs] at hms
    simp only [pyIntCore]
    by_cases h1 : c = '+'
    · rw [if_pos h1]
      have hm2 : ',' ∈ rest := by
        rcases List.mem_cons.mp hms with h2 | h2
        · rw [h1] at h2
          exact absurd h2 (by decide)
        · exact h2
      rw [pyIntDigits_comma b chk v hc rest hm2]
      rfl
    · rw [if_neg h1]
      by_cases h2 : c = '-'
      · rw [if_pos h2]
        have hm2 : ',' ∈ rest := by
          rcases List.mem_cons.mp hms with h3 | h3
          · rw [h2] at h3
            exact absurd h3 (by decide)
          · exact h3
        rw [pyIntDigits_comma b chk v hc rest hm2]
        rfl
      · rw [if_neg h2]
        rw [pyIntDigits_comma b chk v hc (c :: rest) hms]
        rfl

/-- Decimal value of a digit-character list, most significant first. -/
def decValue (l : List Char) : Nat := l.foldl (fun a c => 10 * a + digitVal c) 0

lemma pyInt10_digits (c : Char) (t : List Char) (h : ∀ d ∈ c :: t, d.isDigit = true) :
    pyInt10 (c :: t) = some ((decValue (c :: t) : Nat) : Int) := by
  rw [pyInt10, pyInt, pyStrip_id (fun d hd => digit_not_space (h d hd))]
  simp only [pyIntCore]
  rw [if_neg (hex_ne_plus (digit_isHex (h c (by simp)))),
    if_neg (hex_ne_minus (digit_isHex (h c (by simp)))),
    pyIntDigits_all 10 Char.isDigit digitVal c t
      (fun d hd => ⟨h d hd, digit_ne_underscore (h d hd)⟩)]
  rfl

lemma pyInt16_pair (a b : Char) (ha : isHexDigitCh a = true) (hb : isHexDigitCh b = true) :
    pyInt16 [a, b] = some (Int.ofNat (16 * hexDigitVal a + hexDigitVal b)) := by
  rw [pyInt16, pyInt, pyStrip_id (by
    intro d hd
    rcases List.mem_cons.mp hd with h1 | h1
    · rw [h1]
      exact hex_not_space ha
    · rw [List.mem_singleton.mp h1]
      exact hex_not_space hb)]
  simp only [pyIntCore]
  rw [if_neg (hex_ne_plus ha), if_neg (hex_ne_minus ha),
    pyIntDigits_all 16 isHexDigitCh hexDigitVal a [b] (by
      intro d hd
      rcases List.mem_cons.mp hd with h1 | h1
      · rw [h1]
        exact ⟨ha, hex_ne_underscore ha⟩
      · rw [List.mem_singleton.mp h1]
        exact ⟨hb, hex_ne_underscore hb⟩)]
  simp [List.foldl]

lemma parseHex6_hex (a b c d e f : Char) (h : ∀ x ∈ [a, b, c, d, e, f], isHexDigitCh x = true) :
    parseHex6 [a, b, c, d, e, f] =
      some (Int.ofNat (16 * hexDigitVal a + hexDigitVal b),
        Int.ofNat (16 * hexDigitVal c + hexDigitVal d),
        Int.ofNat (16 * hexDigitVal e + hexDigitVal f), 255) := by
  rw [parseHex6,
    show ([a, b, c, d, e, f].take 2) = [a, b] from rfl,
    show (([a, b, c, d, e, f].drop 2).take 2) = [c, d] from rfl,
    show (([a, b, c, d, e, f].drop 4).take 2) = [e, f] from rfl,
    pyInt16_pair a b (h a (by simp)) (h b (by simp)),
    pyInt16_pair c d (h c (by simp)) (h d (by simp)),
    pyInt16_pair e f (h e (by simp)) (h f (by simp))]

lemma parseHex8_hex (a b c d e f g k : Char)
    (h : ∀ x ∈ [a, b, c, d, e, f, g, k], isHexDigitCh x = true) :
    parseHex8 [a, b, c, d, e, f, g, k] =
      some (Int.ofNat (16 * hexDigitVal a + hexDigitVal b),
        Int.ofNat (16 * hexDigitVal c + hexDigitVal d),
        Int.ofNat (16 * hexDigitVal e + hexDigitVal f),
        Int.ofNat (16 * hexDigitVal g + hexDigitVal k)) := by
  rw [parseHex8,
    show ([a, b, c, d, e, f, g, k].take 2) = [a, b] from rfl,
    show (([a, b, c, d, e, f, g, k].drop 2).take 2) = [c, d] from rfl,
    show (([a, b, c, d, e, f, g, k].drop 4).take 2) = [e, f] from rfl,
    show (([a, b, c, d, e, f, g, k].drop 6).take 2) = [g, k] from rfl,
    pyInt16_pair a b (h a (by simp)) (h b (by simp)),
    pyInt16_pair c d (h c (by simp)) (h d (by simp)),
    pyInt16_pair e f (h e (by simp)) (h f (by simp)),
    pyInt16_pair g k (h g (by simp)) (h k (by simp))]

lemma parseHex6_none_of (l : List Char)
    (h : pyInt16 (l.take 2) = none ∨ pyInt16 ((l.drop 2).take 2) = none ∨
      pyInt16 ((l.drop 4).take 2) = none) : parseHex6 l = none := by
  rw [parseHex6]
  rcases ho1 : pyInt16 (l.take 2) with _ | v1 <;>
    rcases ho2 : pyInt16 ((l.drop 2).take 2) with _ | v2 <;>
    rcases ho3 : pyInt16 ((l.drop 4).take 2) with _ | v3 <;>
    simp_all

lemma parseHex8_none_of (l : List Char)
    (h : pyInt16 (l.take 2) = none ∨ pyInt16 ((l.drop 2).take 2) = none ∨
      pyInt16 ((l.drop 4).take 2) = none ∨ pyInt16 ((l.drop 6).take 2) = none) :
    parseHex8 l = none := by
  rw [parseHex8]
  rcases ho1 : pyInt16 (l.take 2) with _ | v1 <;>
    rcases ho2 : pyInt16 ((l.drop 2).take 2) with _ | v2 <;>
    rcases ho3 : pyInt16 ((l.drop 4).take 2) with _ | v3 <;>
    rcases ho4 : pyInt16 ((l.drop 6).take 2) with _ | v4 <;>
    simp_all

lemma hexComma : isHexDigitCh ',' = false := by decide

lemma parseHex6_comma (l : List Char) (h6 : l.length = 6) (hm : ',' ∈ l) :
    parseHex6 l = none := by
  rcases l with _ | ⟨a, _ | ⟨b, _ | ⟨c, _ | ⟨d, _ | ⟨e, _ | ⟨f, _ | ⟨g, t⟩⟩⟩⟩⟩⟩⟩ <;>
    simp only [List.length] at h6 <;> try omega
  apply parseHex6_none_of
  simp only [List.mem_cons, List.not_mem_nil, or_false] at hm
  rcases hm with h | h | h | h | h | h
  · exact Or.inl (pyInt_comma 16 _ _ hexComma _ (by rw [← h]; simp))
  · exact Or.inl (pyInt_comma 16 _ _ hexComma _ (by rw [← h]; simp))
  · exact Or.inr (Or.inl (pyInt_comma 16 _ _ hexComma _ (by rw [← h]; simp)))
  · exact Or.inr (Or.inl (pyInt_comma 16 _ _ hexComma _ (by rw [← h]; simp)))
  · exact Or.inr (Or.inr (pyInt_comma 16 _ _ hexComma _ (by rw [← h]; simp)))
  · exact Or.inr (Or.inr (pyInt_comma 16 _ _ hexComma _ (by rw [← h]; simp)))

lemma parseHex8_comma (l : List Char) (h8 : l.length = 8) (hm : ',' ∈ l) :
    parseHex8 l = none := by
  rcases l with _ | ⟨a, _ | ⟨b, _ | ⟨c, _ | ⟨d, _ | ⟨e, _ | ⟨f, _ | ⟨g, _ | ⟨k, t⟩⟩⟩⟩⟩⟩⟩⟩ <;>
    simp only [List.length] at h8 <;> try omega
  have ht : t = [] := List.eq_nil_of_length_eq_zero (by omega)
  subst ht
  apply parseHex8_none_of
  simp only [List.mem_cons, List.not_mem_nil, or_false] at hm
  rcases hm with h | h | h | h | h | h | h | h
  · exact Or.inl (pyInt_comma 16 _ _ hexComma _ (by rw [← h]; simp))
  · exact Or.inl (pyInt_comma 16 _ _ hexComma _ (by rw [← h]; simp))
  · exact Or.inr (Or.inl (pyInt_comma 16 _ _ hexComma _ (by rw [← h]; simp)))
  · exact Or.inr (Or.inl (pyInt_comma 16 _ _ hexComma _ (by rw [← h]; simp)))
  · exact Or.inr (Or.inr (Or.inl (pyInt_comma 16 _ _ hexComma _ (by rw [← h]; simp))))
  · exact Or.inr (Or.inr (Or.inl (pyInt_comma 16 _ _ hexComma _ (by rw [← h]; simp))))
  · exact Or.inr (Or.inr (Or.inr (pyInt_comma 16 _ _ hexComma _ (by rw [← h]; simp))))
  · exact Or.inr (Or.inr (Or.inr (pyInt_comma 16 _ _ hexComma _ (by rw [← h]; simp))))

lemma parseColorChars_hex6 (a b c d e f : Char)
    (h : ∀ x ∈ [a, b, c, d, e, f], isHexDigitCh x = true) :
    parseColorChars [a, b, c, d, e, f] =
      (Int.ofNat (16 * hexDigitVal a + hexDigitVal b),
        Int.ofNat (16 * hexDigitVal c + hexDigitVal d),
        Int.ofNat (16 * hexDigitVal e + hexDigitVal f), 255) := by
  have hns : ∀ x ∈ ([a, b, c, d, e, f] : List Char), pyIsSpace x = false :=
    fun x hx => hex_not_space (h x hx)
  rw [parseColorChars]
  simp only [pyStrip_id hns]
  rw [if_neg (by simp)]
  rw [if_pos (show ([a, b, c, d, e, f] : List Char).length = 6 from rfl)]
  rw [parseHex6_hex a b c d e f h]

lemma parseColorChars_hex8 (a b c d e f g k : Char)
    (h : ∀ x ∈ [a, b, c, d, e, f, g, k], isHexDigitCh x = true) :
    parseColorChars [a, b, c, d, e, f, g, k] =
      (Int.ofNat (16 * hexDigitVal a + hexDigitVal b),
        Int.ofNat (16 * hexDigitVal c + hexDigitVal d),
        Int.ofNat (16 * hexDigitVal e + hexDigitVal f),
        Int.ofNat (16 * hexDigitVal g + hexDigitVal k)) := by
  have hns : ∀ x ∈ ([a, b, c, d, e, f, g, k] : List Char), pyIsSpace x = false :=
    fun x hx => hex_not_space (h x hx)
  rw [parseColorChars]
  simp only [pyStrip_id hns]
  rw [if_neg (by simp)]
  rw [if_neg (show ¬(([a, b, c, d, e, f, g, k] : List Char).length = 6) by simp)]
  rw [if_pos (show ([a, b, c, d, e, f, g, k] : List Char).length = 8 from rfl)]
  rw [parseHex8_hex a b c d e f g k h]

lemma pyInt10_digits_of_ne_nil (l : List Char) (h : l ≠ [])
    (hd : ∀ c ∈ l, c.isDigit = true) : pyInt10 l = some (Int.ofNat (decValue l)) := by
  obtain ⟨c, t, rfl⟩ := List.exists_cons_of_ne_nil h
  exact pyInt10_digits c t hd

lemma not_comma_mem_digits {l : List Char} (hd : ∀ c ∈ l, c.isDigit = true) : ',' ∉ l :=
  fun hm => absurd (hd ',' hm) (by decide)

lemma parseDecimalParts_three (d1 d2 d3 : List Char)
    (h1 : d1 ≠ []) (h2 : d2 ≠ []) (h3 : d3 ≠ [])
    (hd1 : ∀ c ∈ d1, c.isDigit = true) (hd2 : ∀ c ∈ d2, c.isDigit = true)
    (hd3 : ∀ c ∈ d3, c.isDigit = true) :
    parseDecimalParts (d1 ++ ',' :: (d2 ++ ',' :: d3)) =
      some [Int.ofNat (decValue d1), Int.ofNat (decValue d2), Int.ofNat (decValue d3)] := by
  rw [parseDecimalParts, splitOnComma_append d1 _ (not_comma_mem_digits hd1),
    splitOnComma_append d2 _ (not_comma_mem_digits hd2),
    splitOnComma_no_comma (not_comma_mem_digits hd3)]
  rw [List.mapM_cons, List.mapM_cons, List.mapM_cons, List.mapM_nil]
  rw [pyInt10_digits_of_ne_nil d1 h1 hd1, pyInt10_digits_of_ne_nil d2 h2 hd2,
    pyInt10_digits_of_ne_nil d3 h3 hd3]
  rfl

lemma parseDecimalParts_four (d1 d2 d3 d4 : List Char)
    (h1 : d1 ≠ []) (h2 : d2 ≠ []) (h3 : d3 ≠ []) (h4 : d4 ≠ [])
    (hd1 : ∀ c ∈ d1, c.isDigit = true) (hd2 : ∀ c ∈ d2, c.isDigit = true)
    (hd3 : ∀ c ∈ d3, c.isDigit = true) (hd4 : ∀ c ∈ d4, c.isDigit = true) :
    parseDecimalParts (d1 ++ ',' :: (d2 ++ ',' :: (d3 ++ ',' :: d4))) =
      some [Int.ofNat (decValue d1), Int.ofNat (decValue d2), Int.ofNat (decValue d3),
        Int.ofNat (decValue d4)] := by
  rw [parseDecimalParts, splitOnComma_append d1 _ (not_comma_mem_digits hd1),
    splitOnComma_append d2 _ (not_comma_mem_digits hd2),
    splitOnComma_append d3 _ (not_comma_mem_digits hd3),
    splitOnComma_no_comma (not_comma_mem_digits hd4)]
  rw [List.mapM_cons, List.mapM_cons, List.mapM_cons, List.mapM_cons, List.mapM_nil]
  rw [pyInt10_digits_of_ne_nil d1 h1 hd1, pyInt10_digits_of_ne_nil d2 h2 hd2,
    pyInt10_digits_of_ne_nil d3 h3 hd3, pyInt10_digits_of_ne_nil d4 h4 hd4]
  rfl

lemma mem_decimal3 {c : Char} {d1 d2 d3 : List Char}
    (hc : c ∈ d1 ++ ',' :: (d2 ++ ',' :: d3)) :
    c ∈ d1 ∨ c = ',' ∨ c ∈ d2 ∨ c ∈ d3 := by
  simp only [List.mem_append, List.mem_cons] at hc
  tauto

lemma parseColorChars_dec3 (d1 d2 d3 : List Char)
    (h1 : d1 ≠ []) (h2 : d2 ≠ []) (h3 : d3 ≠ [])
    (hd1 : ∀ c ∈ d1, c.isDigit = true) (hd2 : ∀ c ∈ d2, c.isDigit = true)
    (hd3 : ∀ c ∈ d3, c.isDigit = true) :
    parseColorChars (d1 ++ ',' :: (d2 ++ ',' :: d3)) =
      (Int.ofNat (decValue d1), Int.ofNat (decValue d2), Int.ofNat (decValue d3), 255) := by
  have hns : ∀ c ∈ d1 ++ ',' :: (d2 ++ ',' :: d3), pyIsSpace c = false := by
    intro c hc
    rcases mem_decimal3 hc with h | h | h | h
    · exact digit_not_space (hd1 c h)
    · rw [h]
      exact comma_not_space
    · exact digit_not_space (hd2 c h)
    · exact digit_not_space (hd3 c h)
  have hmem : ',' ∈ d1 ++ ',' :: (d2 ++ ',' :: d3) := by simp
  rw [parseColorChars]
  simp only [pyStrip_id hns]
  rw [if_neg (by simp [h1])]
  have hhex : (if (d1 ++ ',' :: (d2 ++ ',' :: d3)).length = 6
      then parseHex6 (d1 ++ ',' :: (d2 ++ ',' :: d3))
      else if (d1 ++ ',' :: (d2 ++ ',' :: d3)).length = 8
        then parseHex8 (d1 ++ ',' :: (d2 ++ ',' :: d3)) else none) = none := by
    split
    · exact parseHex6_comma _ (by assumption) hmem
    · split
      · exact parseHex8_comma _ (by assumption) hmem
      · rfl
  rw [hhex, parseDecimalParts_three d1 d2 d3 h1 h2 h3 hd1 hd2 hd3]

lemma mem_decimal4 {c : Char} {d1 d2 d3 d4 : List Char}
    (hc : c ∈ d1 ++ ',' :: (d2 ++ ',' :: (d3 ++ ',' :: d4))) :
    c ∈ d1 ∨ c = ',' ∨ c ∈ d2 ∨ c ∈ d3 ∨ c ∈ d4 := by
  simp only [List.mem_append, List.mem_cons] at hc
  tauto

lemma parseColorChars_dec4 (d1 d2 d3 d4 : List Char)
    (h1 : d1 ≠ []) (h2 : d2 ≠ []) (h3 : d3 ≠ []) (h4 : d4 ≠ [])
    (hd1 : ∀ c ∈ d1, c.isDigit = true) (hd2 : ∀ c ∈ d2, c.isDigit = true)
    (hd3 : ∀ c ∈ d3, c.isDigit = true) (hd4 : ∀ c ∈ d4, c.isDigit = true) :
    parseColorChars (d1 ++ ',' :: (d2 ++ ',' :: (d3 ++ ',' :: d4))) =
      (Int.ofNat (decValue d1), Int.ofNat (decValue d2), Int.ofNat (decValue d3),
        Int.ofNat (decValue d4)) := by
  have hns : ∀ c ∈ d1 ++ ',' :: (d2 ++ ',' :: (d3 ++ ',' :: d4)), pyIsSpace c = false := by
    intro c hc
    rcases mem_decimal4 hc with h | h | h | h | h
    · exact digit_not_space (hd1 c h)
    · rw [h]
      exact comma_not_space
    · exact digit_not_space (hd2 c h)
    · exact digit_not_space (hd3 c h)
    · exact digit_not_space (hd4 c h)
  have hmem : ',' ∈ d1 ++ ',' :: (d2 ++ ',' :: (d3 ++ ',' :: d4)) := by simp
  rw [parseColorChars]
  simp only [pyStrip_id hns]
  rw [if_neg (by simp [h1])]
  have hhex : (if (d1 ++ ',' :: (d2 ++ ',' :: (d3 ++ ',' :: d4))).length = 6
      then parseHex6 (d1 ++ ',' :: (d2 ++ ',' :: (d3 ++ ',' :: d4)))
      else if (d1 ++ ',' :: (d2 ++ ',' :: (d3 ++ ',' :: d4))).length = 8
        then parseHex8 (d1 ++ ',' :: (d2 ++ ',' :: (d3 ++ ',' :: d4))) else none) = none := by
    split
    · exact parseHex6_comma _ (by assumption) hmem
    · split
      · exact parseHex8_comma _ (by assumption) hmem
      · rfl
  rw [hhex, parseDecimalParts_four d1 d2 d3 d4 h1 h2 h3 h4 hd1 hd2 hd3 hd4]

/-- C5 (amended): a string of 6 hex digits parses to its three hex pairs
with alpha 255; 8 hex digits to four pairs; a 3-component comma-separated
string of decimal numerals to the three values with alpha 255; a
4-component one to the four values; and the spec's five concrete vectors
hold.  The claim's residual clause "any other string yields (0,0,0,0)" is
false as stated: the components go through Python `int`, which also
accepts surrounding whitespace, a sign, and PEP 515 underscores (see the
counterexample), so those near-miss strings still parse. -/
theorem claim_C5_amended :
    (∀ a b c d e f : Char, (∀ x ∈ [a, b, c, d, e, f], isHexDigitCh x = true) →
      parseColorChars [a, b, c, d, e, f] =
        (Int.ofNat (16 * hexDigitVal a + hexDigitVal b),
          Int.ofNat (16 * hexDigitVal c + hexDigitVal d),
          Int.ofNat (16 * hexDigitVal e + hexDigitVal f), 255)) ∧
    (∀ a b c d e f g k : Char, (∀ x ∈ [a, b, c, d, e, f, g, k], isHexDigitCh x = true) →
      parseColorChars [a, b, c, d, e, f, g, k] =
        (Int.ofNat (16 * hexDigitVal a + hexDigitVal b),
          Int.ofNat (16 * hexDigitVal c + hexDigitVal d),
          Int.ofNat (16 * hexDigitVal e + hexDigitVal f),
          Int.ofNat (16 * hexDigitVal g + hexDigitVal k))) ∧
    (∀ d1 d2 d3 : List Char, d1 ≠ [] → d2 ≠ [] → d3 ≠ [] →
      (∀ c ∈ d1, c.isDigit = true) → (∀ c ∈ d2, c.isDigit = true) →
      (∀ c ∈ d3, c.isDigit = true) →
      parseColorChars (d1 ++ ',' :: (d2 ++ ',' :: d3)) =
        (Int.ofNat (decValue d1), Int.ofNat (decValue d2), Int.ofNat (decValue d3), 255)) ∧
    (∀ d1 d2 d3 d4 : List Char, d1 ≠ [] → d2 ≠ [] → d3 ≠ [] → d4 ≠ [] →
      (∀ c ∈ d1, c.isDigit = true) → (∀ c ∈ d2, c.isDigit = true) →
      (∀ c ∈ d3, c.isDigit = true) → (∀ c ∈ d4, c.isDigit = true) →
      parseColorChars (d1 ++ ',' :: (d2 ++ ',' :: (d3 ++ ',' :: d4))) =
        (Int.ofNat (decValue d1), Int.ofNat (decValue d2), Int.ofNat (decValue d3),
          Int.ofNat (decValue d4))) ∧
    parseColorString "ff0000" = (255, 0, 0, 255) ∧
    parseColorString "ff000080" = (255, 0, 0, 128) ∧
    parseColorString "10,20,30" = (10, 20, 30, 255) ∧
    parseColorString "10,20,30,40" = (10, 20, 30, 40) ∧
    parseColorString "bogus" = (0, 0, 0, 0) :=
  ⟨parseColorChars_hex6, parseColorChars_hex8, parseColorChars_dec3, parseColorChars_dec4,
    by decide, by decide, by decide, by decide, by decide⟩

/-- Witness for the amended C5 at a concrete input: six hex digits
"ff0000" parse to (255,0,0,255) through the general hex clause. -/
theorem claim_C5_amended_witness :
    parseColorChars ['f', 'f', '0', '0', '0', '0'] = (255, 0, 0, 255) := by
  have h := claim_C5_amended.1 'f' 'f' '0' '0' '0' '0' (by decide)
  rw [h]
  decide

lemma hexPairVal_bounds {a b : Char} (ha : isHexDigitCh a = true) (hb : isHexDigitCh b = true) :
    0 ≤ Int.ofNat (16 * hexDigitVal a + hexDigitVal b) ∧
      Int.ofNat (16 * hexDigitVal a + hexDigitVal b) ≤ 255 := by
  have h1 := hexDigitVal_le ha
  have h2 := hexDigitVal_le hb
  constructor
  · exact Int.ofNat_nonneg _
  · have hs : 16 * hexDigitVal a + hexDigitVal b ≤ 255 := by omega
    exact Int.ofNat_le.mpr hs

/-- C6 (amended): the parsed color is always a 4-integer tuple; for
strings of 6 or 8 plain hex digits every component lies in [0,255] (and so
does the (0,0,0,0) fallback).  The claim fails as stated because the
comma-decimal path returns Python's parsed integers unclamped, so
components can fall outside [0,255] (see the counterexample). -/
theorem claim_C6_amended :
    (∀ a b c d e f : Char, (∀ x ∈ [a, b, c, d, e, f], isHexDigitCh x = true) →
      0 ≤ (parseColorChars [a, b, c, d, e, f]).1 ∧
        (parseColorChars [a, b, c, d, e, f]).1 ≤ 255 ∧
        0 ≤ (parseColorChars [a, b, c, d, e, f]).2.1 ∧
        (parseColorChars [a, b, c, d, e, f]).2.1 ≤ 255 ∧
        0 ≤ (parseColorChars [a, b, c, d, e, f]).2.2.1 ∧
        (parseColorChars [a, b, c, d, e, f]).2.2.1 ≤ 255 ∧
        0 ≤ (parseColorChars [a, b, c, d, e, f]).2.2.2 ∧
        (parseColorChars [a, b, c, d, e, f]).2.2.2 ≤ 255) ∧
    (∀ a b c d e f g k : Char, (∀ x ∈ [a, b, c, d, e, f, g, k], isHexDigitCh x = true) →
      0 ≤ (parseColorChars [a, b, c, d, e, f, g, k]).1 ∧
        (parseColorChars [a, b, c, d, e, f, g, k]).1 ≤ 255 ∧
        0 ≤ (parseColorChars [a, b, c, d, e, f, g, k]).2.1 ∧
        (parseColorChars [a, b, c, d, e, f, g, k]).2.1 ≤ 255 ∧
        0 ≤ (parseColorChars [a, b, c, d, e, f, g, k]).2.2.1 ∧
        (parseColorChars [a, b, c, d, e, f, g, k]).2.2.1 ≤ 255 ∧
        0 ≤ (parseColorChars [a, b, c, d, e, f, g, k]).2.2.2 ∧
        (parseColorChars [a, b, c, d, e, f, g, k]).2.2.2 ≤ 255) := by
  constructor
  · intro a b c d e f h
    rw [parseColorChars_hex6 a b c d e f h]
    refine ⟨(hexPairVal_bounds (h a (by simp)) (h b (by simp))).1,
      (hexPairVal_bounds (h a (by simp)) (h b (by simp))).2,
      (hexPairVal_bounds (h c (by simp)) (h d (by simp))).1,
      (hexPairVal_bounds (h c (by simp)) (h d (by simp))).2,
      (hexPairVal_bounds (h e (by simp)) (h f (by simp))).1,
      (hexPairVal_bounds (h e (by simp)) (h f (by simp))).2,
      by norm_num, by norm_num⟩
  · intro a b c d e f g k h
    rw [parseColorChars_hex8 a b c d e f g k h]
    refine ⟨(hexPairVal_bounds (h a (by simp)) (h b (by simp))).1,
      (hexPairVal_bounds (h a (by simp)) (h b (by simp))).2,
      (hexPairVal_bounds (h c (by simp)) (h d (by simp))).1,
      (hexPairVal_bounds (h c (by simp)) (h d (by simp))).2,
      (hexPairVal_bounds (h e (by simp)) (h f (by simp))).1,
      (hexPairVal_bounds (h e (by simp)) (h f (by simp))).2,
      (hexPairVal_bounds (h g (by simp)) (h k (by simp))).1,
      (hexPairVal_bounds (h g (by simp)) (h k (by simp))).2⟩

/-- Witness for the amended C6 at a concrete input: all components of the
parse of "ff0000" lie within bounds. -/
theorem claim_C6_amended_witness :
    0 ≤ (parseColorChars ['f', 'f', '0', '0', '0', '0']).1 ∧
      (parseColorChars ['f', 'f', '0', '0', '0', '0']).1 ≤ 255 := by
  have h := claim_C6_amended.1 'f' 'f' '0' '0' '0' '0' (by decide)
  exact ⟨h.1, h.2.1⟩
